import Mathlib

/-!
Verification development for the employee recruiter agent pipeline
(employee_recruiter_agent.py).

The program drives a four stage pipeline: screen resumes against a job
description, partition candidates by a score threshold, schedule interviews
for selected candidates, and draft plus send invitation emails.  External
capabilities (PDF text extraction, the four LLM agents, the simulated
scheduling and email tools) are modelled by an environment `Env` of
deterministic response functions; a `none` response stands for a missing
response, missing content, or a raised exception, all of which the source
treats alike.  The deterministic fallback parsers (regex based extraction of
name, email, score and subject) are embedded directly as executable
functions on character lists, mirroring the Python `re.search` backtracking
semantics of the concrete patterns used by the source.  Scores are modelled
as rationals; `str.lower` is modelled on the ASCII range, which covers every
token the source searches for.  Calendar dates are abstracted to an absolute
day index inside `PyDateTime`; random draws of the simulated scheduler are
supplied by the environment, with the `randint` range contracts appearing as
hypotheses.
-/

/-- Candidate status strings used by the source: "selected", "rejected",
"scheduled", "email_sent". -/
inductive Status where
  | selected
  | rejected
  | scheduled
  | email_sent
deriving DecidableEq, Repr

/-- Results from candidate screening (pydantic model ScreeningResult). -/
structure ScreeningResult where
  name : String
  email : String
  score : Rat
  feedback : String
deriving DecidableEq, Repr

/-- Scheduled interview details (pydantic model ScheduledCall). -/
structure ScheduledCall where
  name : String
  email : String
  call_time : String
  url : String
deriving DecidableEq, Repr

/-- Email content structure (pydantic model EmailContent). -/
structure EmailContent where
  subject : String
  body : String
deriving DecidableEq, Repr

/-- Complete result for a single candidate (pydantic model CandidateResult). -/
structure CandidateResult where
  name : String
  email : String
  score : Rat
  feedback : String
  status : Status
  interview_time : Option String
  meeting_url : Option String
  email_subject : Option String
deriving DecidableEq, Repr

/-- An agent run either returns content of the expected structured type or
some other content, which the source coerces to text and parses by hand. -/
inductive AgentResp (α : Type) where
  | structured : α → AgentResp α
  | raw : String → AgentResp α
deriving DecidableEq, Repr

/-- Naive datetime, with the calendar date abstracted to an absolute day
index.  timedelta day arithmetic and the replace of the time fields used by
the source act on this representation. -/
structure PyDateTime where
  day : Nat
  hour : Nat
  minute : Nat
  second : Nat
deriving DecidableEq, Repr

/-- datetime plus timedelta(days = d). -/
def addDays (dt : PyDateTime) (d : Nat) : PyDateTime :=
  { dt with day := dt.day + d }

/-- datetime.replace(hour = h, minute = 0, second = 0, microsecond = 0). -/
def replaceTimeFields (dt : PyDateTime) (h : Nat) : PyDateTime :=
  { dt with hour := h, minute := 0, second := 0 }

/-- Two digit zero padding, as the %H and %M strftime fields produce. -/
def pad2 (n : Nat) : String :=
  if n < 10 then "0" ++ Nat.repr n else Nat.repr n

/-- Models strftime with format %Y-%m-%d %H:%M IST; the calendar date is
rendered through the abstract day index. -/
def fmtDateTime (dt : PyDateTime) : String :=
  "day " ++ Nat.repr dt.day ++ " " ++ pad2 dt.hour ++ ":" ++ pad2 dt.minute ++ " IST"

/-- Models str.lower on the ASCII range (every token the source searches
for is ASCII). -/
def asciiLower (c : Char) : Char :=
  match c with
  | 'A' => 'a' | 'B' => 'b' | 'C' => 'c' | 'D' => 'd' | 'E' => 'e'
  | 'F' => 'f' | 'G' => 'g' | 'H' => 'h' | 'I' => 'i' | 'J' => 'j'
  | 'K' => 'k' | 'L' => 'l' | 'M' => 'm' | 'N' => 'n' | 'O' => 'o'
  | 'P' => 'p' | 'Q' => 'q' | 'R' => 'r' | 'S' => 's' | 'T' => 't'
  | 'U' => 'u' | 'V' => 'v' | 'W' => 'w' | 'X' => 'x' | 'Y' => 'y'
  | 'Z' => 'z' | other => other

/-- Characters of the Python regex class backslash-s and of str.strip. -/
def isPySpace (c : Char) : Bool :=
  c == ' ' || c == '\t' || c == '\n' || c == '\r' || c == '\x0b' || c == '\x0c'

/-- Characters of the Python regex class backslash-w (ASCII model). -/
def isWordC (c : Char) : Bool :=
  c.isAlphanum || c == '_'

/-- Character class of the email pattern: word characters, dot and dash. -/
def emailCls (c : Char) : Bool :=
  isWordC c || c == '.' || c == '-'

/-- Character class of the separator piece colon-or-space in the score,
rating and subject patterns. -/
def sepCls (c : Char) : Bool :=
  c == ':' || isPySpace c

/-- Terminator class of the subject pattern: newline or carriage return. -/
def isTermC (c : Char) : Bool :=
  c == '\n' || c == '\r'

/-- Python substring membership (the in operator on strings). -/
def containsSub : List Char → List Char → Bool
  | [], needle => needle.isEmpty
  | c :: rest, needle => needle.isPrefixOf (c :: rest) || containsSub rest needle

/-- Python str.split on a single newline character. -/
def pyLines : List Char → List (List Char)
  | [] => [[]]
  | c :: rest =>
    if c = '\n' then [] :: pyLines rest
    else
      match pyLines rest with
      | l :: ls => (c :: l) :: ls
      | [] => [[c]]

/-- Python str.strip with no arguments: drop whitespace from both ends. -/
def pyStrip (l : List Char) : List Char :=
  ((l.dropWhile isPySpace).reverse.dropWhile isPySpace).reverse

/-- The part of a line after its first colon (line.split at the first colon,
second piece); total function, returning the empty list when no colon
occurs, which the source guards against. -/
def afterColon : List Char → List Char
  | [] => []
  | c :: r => if c = ':' then r else afterColon r

/-- Lowered character list of a string, as the source applies str.lower
before matching the score patterns. -/
def pyLowerList (s : String) : List Char :=
  s.toList.map asciiLower

/-- Numeric value of a digit list, most significant digit first. -/
def digitsToNat (l : List Char) : Nat :=
  l.foldl (fun a c => a * 10 + (c.toNat - 48)) 0

/-- Decimal value of a matched number group of shape digits, optional dot,
optional digits; models Python float on exactly these strings. -/
def parseDecimal (l : List Char) : Rat :=
  let ip := l.takeWhile Char.isDigit
  match l.dropWhile Char.isDigit with
  | '.' :: fr => (digitsToNat ip : Rat) + (digitsToNat fr : Rat) / ((10 : Rat) ^ fr.length)
  | _ => (digitsToNat ip : Rat)

/-- Greedy match of the number group digits, optional dot, optional digits
at the head of the input; returns the group and the rest.  For the contexts
the source uses it in (end of pattern, or followed by a slash), greedy
matching coincides with the full backtracking semantics, because every
position a quantifier could give back holds a digit or a dot. -/
def numToken (l : List Char) : Option (List Char × List Char) :=
  let d1 := l.takeWhile Char.isDigit
  if d1.isEmpty then none
  else
    match l.dropWhile Char.isDigit with
    | '.' :: r2 => some (d1 ++ '.' :: r2.takeWhile Char.isDigit, r2.dropWhile Char.isDigit)
    | r1 => some (d1, r1)

/-- Anchored match of the pattern token, one or more of colon-or-space, then
a captured number, at the head of the input. -/
def matchScoreAt (tok l : List Char) : Option (List Char) :=
  if tok.isPrefixOf l then
    let r := (l.drop tok.length)
    let sep := r.takeWhile sepCls
    if sep.isEmpty then none
    else
      match numToken (r.dropWhile sepCls) with
      | some (g, _) => some g
      | none => none
  else none

/-- Leftmost search of the score or rating pattern (re.search semantics). -/
def searchScoreTok (tok : List Char) : List Char → Option (List Char)
  | [] => none
  | c :: rest =>
    match matchScoreAt tok (c :: rest) with
    | some g => some g
    | none => searchScoreTok tok rest

/-- Anchored match of a captured number followed by the literal /10. -/
def matchSlash10At (l : List Char) : Option (List Char) :=
  match numToken l with
  | some (g, rest) => if ['/', '1', '0'].isPrefixOf rest then some g else none
  | none => none

/-- Leftmost search of the number-slash-ten pattern. -/
def searchSlash10 : List Char → Option (List Char)
  | [] => none
  | c :: rest =>
    match matchSlash10At (c :: rest) with
    | some g => some g
    | none => searchSlash10 rest

/-- The three score patterns tried in source order on the lowered text:
score colon-or-space number, number slash ten, rating colon-or-space
number; the first pattern that matches wins and its first match is taken. -/
def findScoreMatch (lower : List Char) : Option (List Char) :=
  match searchScoreTok ("score".toList) lower with
  | some g => some g
  | none =>
    match searchSlash10 lower with
    | some g => some g
    | none => searchScoreTok ("rating".toList) lower

/-- Rightmost split of a class run at a dot that is followed by a word
character; mirrors the backtracking of the email pattern, which gives the
dot as late as possible. -/
def lastDotSplit : List Char → Option (List Char × List Char)
  | [] => none
  | c :: rest =>
    match lastDotSplit rest with
    | some (a, b) => some (c :: a, b)
    | none =>
      if c = '.' then
        match rest with
        | d :: _ => if isWordC d then some ([], rest) else none
        | [] => none
      else none

/-- Anchored match of the email pattern class-run at-sign class-run dot
word-run at the head of the input, following the backtracking order of the
Python engine. -/
def matchEmailAt (l : List Char) : Option (List Char) :=
  let r1 := l.takeWhile emailCls
  if r1.isEmpty then none
  else
    match l.drop r1.length with
    | '@' :: r =>
      let r2 := r.takeWhile emailCls
      if r2.isEmpty then none
      else
        match lastDotSplit r2 with
        | some (a, b) => if a.isEmpty then none else some (r1 ++ '@' :: (a ++ '.' :: b.takeWhile isWordC))
        | none => none
    | _ => none

/-- Leftmost search of the email pattern on the raw response text. -/
def emailSearch : List Char → Option (List Char)
  | [] => none
  | c :: rest =>
    match matchEmailAt (c :: rest) with
    | some g => some g
    | none => emailSearch rest

/-- Case-insensitive literal prefix test (the pattern literal is given in
lowercase). -/
def ciPrefix (pat l : List Char) : Bool :=
  pat.isPrefixOf ((l.take pat.length).map asciiLower)

/-- Index of the last character of the list satisfying the predicate. -/
def lastIdxWhere (p : Char → Bool) : List Char → Option Nat
  | [] => none
  | c :: rest =>
    match lastIdxWhere p rest with
    | some i => some (i + 1)
    | none => if p c then some 0 else none

/-- Anchored match of the subject pattern: the literal subject ignoring
case, one or more of colon-or-space, then a lazily captured run of
non-newline characters terminated by a newline or carriage return.  When no
terminator follows the greedy separator run the engine backtracks into the
run itself, whose own newline characters can serve as terminator with an
empty capture; the separator must keep at least one character. -/
def matchSubjectAt (l : List Char) : Option (List Char) :=
  if ciPrefix ("subject".toList) l then
    let r := l.drop 7
    let run := r.takeWhile sepCls
    if run.isEmpty then none
    else
      let after := r.drop run.length
      if after.any isTermC then some (after.takeWhile (fun c => !(isTermC c)))
      else
        match lastIdxWhere isTermC run with
        | some q => if 1 ≤ q then some [] else none
        | none => none
  else none

/-- Leftmost search of the subject pattern on the raw response text. -/
def searchSubject : List Char → Option (List Char)
  | [] => none
  | c :: rest =>
    match matchSubjectAt (c :: rest) with
    | some g => some g
    | none => searchSubject rest

/-- First line whose lowered form holds the token name colon: the part of
that original line after its first colon, stripped; the default name when no
line matches. -/
def nameFromLines : List (List Char) → String
  | [] => "Unknown Candidate"
  | l :: ls =>
    if containsSub (l.map asciiLower) ("name:".toList) then
      String.mk (pyStrip (afterColon l))
    else nameFromLines ls

/-- Fallback parsing of a screening response that did not arrive as a
structured ScreeningResult: name from the first line holding the token name
colon, email from the first match of the email pattern or synthesized from
the name, score from the three score patterns with values above ten divided
by ten and default five, feedback the first thousand characters. -/
def fallbackScreen (text_content : String) : ScreeningResult :=
  let tl := text_content.toList
  let lowerT := pyLowerList text_content
  let name :=
    if containsSub lowerT ("name:".toList) then nameFromLines (pyLines tl)
    else "Unknown Candidate"
  let email :=
    match emailSearch tl with
    | some m => String.mk m
    | none => String.mk ((name.toList.map (fun c => if c = ' ' then '.' else c)).map asciiLower) ++ "@example.com"
  let score :=
    match findScoreMatch lowerT with
    | none => (5 : Rat)
    | some g =>
      let v := parseDecimal g
      if 10 < v then v / 10 else v
  { name := name, email := email, score := score, feedback := String.mk (tl.take 1000) }

/-- Environment of external capabilities.  extract models the PDF text
extractor, with the empty string as its failure sentinel.  screenResp models
the screening agent run on the prompt built from resume text and job
description; schedResp the scheduler agent run on the prompt built from the
candidate; emailWriteResp the email writer run on the prompt built from
candidate and scheduled call; emailSendResp the email sender run on the
prompt holding recipient, subject and body, returning an acknowledgment.  A
none response stands for a missing response, missing content, or a raised
exception.  now models datetime.now at the run, and schedRand the three
randint draws (day offset, hour, meeting id) of the scheduling fallback for
a candidate. -/
structure Env where
  extract : String → String
  now : PyDateTime
  screenResp : String → String → Option (AgentResp ScreeningResult)
  schedResp : ScreeningResult → Option (AgentResp ScheduledCall)
  schedRand : ScreeningResult → Nat × Nat × Nat
  emailWriteResp : ScreeningResult → ScheduledCall → Option (AgentResp EmailContent)
  emailSendResp : String → String → String → Option String

/-- Outcome of the screening agent call: the structured result when one
arrives, the fallback parse of the textual content otherwise, none on
failure. -/
def runScreening (env : Env) (resume_text job_description : String) : Option ScreeningResult :=
  match env.screenResp resume_text job_description with
  | none => none
  | some (AgentResp.structured r) => some r
  | some (AgentResp.raw s) => some (fallbackScreen s)

/-- Return of screen_candidate: the optional screening result, the resume
cache after the call, and whether the extractor was invoked. -/
structure ScreenOut where
  result : Option ScreeningResult
  cache : List (String × String)
  extracted : Bool
deriving Repr

/-- screen_candidate: on a cache miss extract the resume text, fail without
caching when extraction yields the empty string, cache and screen otherwise;
on a cache hit screen the cached text without extracting. -/
def screen_candidate (env : Env) (resume_path job_description : String)
    (resume_cache : List (String × String)) : ScreenOut :=
  match List.lookup resume_path resume_cache with
  | none =>
    let resume_text := env.extract resume_path
    if resume_text = "" then { result := none, cache := resume_cache, extracted := true }
    else
      { result := runScreening env resume_text job_description,
        cache := (resume_path, resume_text) :: resume_cache, extracted := true }
  | some resume_text =>
    { result := runScreening env resume_text job_description,
      cache := resume_cache, extracted := false }

/-- The screening outcome for a path as a function of the environment
alone; under a consistent cache, screen_candidate returns exactly this. -/
def screenPure (env : Env) (jd p : String) : Option ScreeningResult :=
  if env.extract p = "" then none else runScreening env (env.extract p) jd

/-- schedule_interview: pass a structured ScheduledCall through, synthesize
a slot from the random draws in the fallback, none on failure. -/
def schedule_interview (env : Env) (candidate : ScreeningResult) : Option ScheduledCall :=
  match env.schedResp candidate with
  | none => none
  | some (AgentResp.structured result) => some result
  | some (AgentResp.raw _) =>
    let dr := env.schedRand candidate
    let scheduled_time := replaceTimeFields (addDays env.now dr.1) dr.2.1
    some { name := candidate.name, email := candidate.email,
           call_time := fmtDateTime scheduled_time,
           url := "https://zoom.us/j/" ++ Nat.repr dr.2.2 }

/-- Return of send_interview_invitation: the optional email content, and
whether the send capability was invoked. -/
structure EmailStepOut where
  content : Option EmailContent
  sendInvoked : Bool
deriving DecidableEq, Repr

/-- The template body the fallback synthesizes for short textual responses. -/
def fallbackEmailBody (candidate : ScreeningResult) (scheduled_call : ScheduledCall) : String :=
  "Dear " ++ candidate.name ++ ",\n\nCongratulations! We are excited to inform you that you have been selected to move forward in the hiring process.\n\nInterview Details:\n- Date & Time: " ++ scheduled_call.call_time ++ "\n- Duration: 1 hour\n- Meeting Link: " ++ scheduled_call.url ++ "\n\nPlease confirm your availability for this time slot by replying to this email.\n\nWe look forward to speaking with you!\n\nBest regards,\nJohn Doe\nSenior Software Engineer\njohn@agno.com"

/-- send_interview_invitation: with structured draft content invoke the send
capability and succeed exactly on a non-null acknowledgment; with textual
draft content synthesize subject and body without invoking the send
capability; none on drafting failure. -/
def send_interview_invitation (env : Env) (candidate : ScreeningResult)
    (scheduled_call : ScheduledCall) : EmailStepOut :=
  match env.emailWriteResp candidate scheduled_call with
  | none => { content := none, sendInvoked := false }
  | some (AgentResp.structured email_content) =>
    match env.emailSendResp candidate.email email_content.subject email_content.body with
    | some _ => { content := some email_content, sendInvoked := true }
    | none => { content := none, sendInvoked := true }
  | some (AgentResp.raw text_content) =>
    let subject :=
      match searchSubject text_content.toList with
      | some g => String.mk (pyStrip g)
      | none => "Interview Invitation - Backend Engineer Position"
    let body :=
      if 50 < text_content.length then text_content
      else fallbackEmailBody candidate scheduled_call
    { content := some { subject := subject, body := body }, sendInvoked := false }

/-- The candidate result row created at screening time. -/
def mkRow (ms : Rat) (sr : ScreeningResult) : CandidateResult :=
  { name := sr.name, email := sr.email, score := sr.score, feedback := sr.feedback,
    status := if sr.score < ms then Status.rejected else Status.selected,
    interview_time := none, meeting_url := none, email_subject := none }

/-- The in-place update of a result row once its candidate has a scheduled
call: attach interview time and meeting url, advance the status to
email_sent with the subject when email content exists, to scheduled
otherwise. -/
def updRow (r : CandidateResult) (sc : ScheduledCall) (ec : Option EmailContent) : CandidateResult :=
  match ec with
  | some e =>
    { r with
      interview_time := some sc.call_time, meeting_url := some sc.url,
      email_subject := some e.subject, status := Status.email_sent }
  | none =>
    { r with
      interview_time := some sc.call_time, meeting_url := some sc.url,
      status := Status.scheduled }

/-- The linear scan with break over the results list: update the first row
whose email equals the candidate email, leave every other row unchanged. -/
def applyUpdate : List CandidateResult → String → ScheduledCall → Option EmailContent → List CandidateResult
  | [], _, _, _ => []
  | r :: rest, em, sc, ec =>
    if r.email = em then updRow r sc ec :: rest
    else r :: applyUpdate rest em sc ec

/-- Python dict assignment on the email contents mapping: overwrite in
place, append otherwise. -/
def dictInsert (d : List (String × EmailContent)) (k : String) (v : EmailContent) :
    List (String × EmailContent) :=
  match d with
  | [] => [(k, v)]
  | (k2, v2) :: rest => if k2 = k then (k, v) :: rest else (k2, v2) :: dictInsert rest k v

/-- Instrumentation of the pipeline: the paths handed to the screening
step, the candidates handed to the scheduling step, and the candidates
handed to the email step. -/
structure Trace where
  screened : List String
  schedCalls : List ScreeningResult
  emailCalls : List ScreeningResult
deriving DecidableEq, Repr

/-- Mutable state of the orchestrator during phase one. -/
structure PipeState where
  resume_cache : List (String × String)
  all_candidates : List ScreeningResult
  selected_candidates : List ScreeningResult
  results : List CandidateResult
  email_contents : List (String × EmailContent)
  tr : Trace

/-- One iteration of the phase one loop: screen the path, and on success
append the candidate to all_candidates, to selected_candidates when the
score reaches the threshold, and its row to results; on failure only log. -/
def phase1step (env : Env) (jd : String) (ms : Rat) (st : PipeState) (p : String) : PipeState :=
  let so := screen_candidate env p jd st.resume_cache
  let tr2 : Trace := { st.tr with screened := st.tr.screened ++ [p] }
  match so.result with
  | some sr =>
    { st with
      resume_cache := so.cache,
      all_candidates := st.all_candidates ++ [sr],
      selected_candidates :=
        if ms ≤ sr.score then st.selected_candidates ++ [sr] else st.selected_candidates,
      results := st.results ++ [mkRow ms sr],
      tr := tr2 }
  | none => { st with resume_cache := so.cache, tr := tr2 }

/-- Phase one: the screening loop over the resume paths. -/
def phase1 (env : Env) (jd : String) (ms : Rat) : List String → PipeState → PipeState
  | [], st => st
  | p :: ps, st => phase1 env jd ms ps (phase1step env jd ms st p)

/-- Phase two: for each selected candidate schedule an interview; on
success run the email step, update the first matching results row, and on
email success store the content under the candidate email. -/
def phase2 (env : Env) : List ScreeningResult → List CandidateResult →
    List (String × EmailContent) → Trace →
    List CandidateResult × List (String × EmailContent) × Trace
  | [], results, emails, tr => (results, emails, tr)
  | c :: cs, results, emails, tr =>
    let tr1 : Trace := { tr with schedCalls := tr.schedCalls ++ [c] }
    match schedule_interview env c with
    | none => phase2 env cs results emails tr1
    | some sc =>
      let out := send_interview_invitation env c sc
      let tr2 : Trace := { tr1 with emailCalls := tr1.emailCalls ++ [c] }
      let results2 := applyUpdate results c.email sc out.content
      let emails2 :=
        match out.content with
        | some e =>
          if results.any (fun r => r.email == c.email) then dictInsert emails c.email e
          else emails
        | none => emails
      phase2 env cs results2 emails2 tr2

/-- Aggregate pipeline result; error is none on the non-error path and the
collections are always present. -/
structure PipelineResult where
  all_candidates : List ScreeningResult
  selected_candidates : List ScreeningResult
  results : List CandidateResult
  email_contents : List (String × EmailContent)
  error : Option String
deriving DecidableEq, Repr

/-- The empty trace: no screening, scheduling or email operation invoked. -/
def emptyTrace : Trace := { screened := [], schedCalls := [], emailCalls := [] }

/-- process_candidates: validate the inputs, run phase one over all resume
paths with a fresh cache, run phase two over the selected candidates, and
assemble the report.  The second component is the instrumentation trace. -/
def process_candidates (env : Env) (candidate_resume_paths : List String)
    (job_description : String) (min_score : Rat) : PipelineResult × Trace :=
  if candidate_resume_paths = [] then
    ({ all_candidates := [], selected_candidates := [], results := [],
       email_contents := [], error := some "No candidate resume files provided" }, emptyTrace)
  else if job_description = "" then
    ({ all_candidates := [], selected_candidates := [], results := [],
       email_contents := [], error := some "No job description provided" }, emptyTrace)
  else
    let st0 : PipeState :=
      { resume_cache := [], all_candidates := [], selected_candidates := [],
        results := [], email_contents := [], tr := emptyTrace }
    let st1 := phase1 env job_description min_score candidate_resume_paths st0
    let p2 := phase2 env st1.selected_candidates st1.results st1.email_contents st1.tr
    ({ all_candidates := st1.all_candidates,
       selected_candidates := st1.selected_candidates,
       results := p2.1, email_contents := p2.2.1, error := none }, p2.2.2)

/-- Consistency of the resume cache: every stored text is the non-empty
extraction of its path. -/
def CacheOK (env : Env) (cache : List (String × String)) : Prop :=
  ∀ q t, List.lookup q cache = some t → t = env.extract q ∧ t ≠ ""

/-- A structured screening result used to exercise the pipeline. -/
def cW : ScreeningResult := { name := "Walter", email := "w@x.com", score := 7, feedback := "good" }

/-- A rejected candidate sharing an email address with cB. -/
def cA : ScreeningResult := { name := "Alice", email := "dup@x.com", score := 3, feedback := "fa" }

/-- A selected candidate sharing an email address with cA. -/
def cB : ScreeningResult := { name := "Bob", email := "dup@x.com", score := 7, feedback := "fb" }

/-- Baseline concrete environment: one readable resume screened to cW,
scheduling capability failing, email drafting failing. -/
def envW : Env :=
  { extract := fun p => if p = "a.pdf" then "RESUME W" else "",
    now := { day := 0, hour := 9, minute := 30, second := 0 },
    screenResp := fun t _ => if t = "RESUME W" then some (AgentResp.structured cW) else none,
    schedResp := fun _ => none,
    schedRand := fun _ => (1, 10, 100000000),
    emailWriteResp := fun _ _ => none,
    emailSendResp := fun _ _ _ => some "[OK] Email sent successfully!" }

/-- Environment with two candidates sharing one email: the first rejected,
the second selected; scheduling succeeds through the fallback and email
drafting fails. -/
def envC1 : Env :=
  { envW with
    extract := fun p => if p = "a.pdf" then "RESUME A" else if p = "b.pdf" then "RESUME B" else "",
    screenResp := fun t _ =>
      if t = "RESUME A" then some (AgentResp.structured cA)
      else if t = "RESUME B" then some (AgentResp.structured cB) else none,
    schedResp := fun _ => some (AgentResp.raw "tool text") }

/-- Environment whose email drafting capability answers with plain text. -/
def envC3 : Env := { envW with emailWriteResp := fun _ _ => some (AgentResp.raw "ok then") }

/-- A structured scheduler answer that respects neither the slot shape nor
the meeting url template. -/
def callBadC8 : ScheduledCall := { name := "N", email := "n@x", call_time := "whenever", url := "x" }

/-- Environment whose scheduling capability returns callBadC8 as structured
content. -/
def envC8 : Env := { envW with schedResp := fun _ => some (AgentResp.structured callBadC8) }

/-- A concrete scheduled call used to exercise the email and update steps. -/
def scW : ScheduledCall :=
  { name := "Walter", email := "w@x.com", call_time := "day 1 10:00 IST",
    url := "https://zoom.us/j/100000000" }

/-- A concrete email content value. -/
def ecW : EmailContent := { subject := "Interview Invitation", body := "See you soon." }

/-- A result row whose email differs from the duplicated one. -/
def rowOther : CandidateResult := mkRow 5 { name := "O", email := "other@x", score := 6, feedback := "f" }

/-- First row carrying the duplicated email. -/
def rowDup1 : CandidateResult := mkRow 5 cA

/-- Second row carrying the duplicated email. -/
def rowDup2 : CandidateResult := mkRow 5 cB

theorem pyLines_ne_nil (t : List Char) : pyLines t ≠ [] := by
  cases t with
  | nil => simp [pyLines]
  | cons c rest =>
    unfold pyLines
    by_cases h : c = '\n'
    · simp [h]
    · rw [if_neg h]
      cases hr : pyLines rest <;> simp

theorem asciiLower_newline {c : Char} (h : asciiLower c = '\n') : c = '\n' := by
  unfold asciiLower at h
  split at h <;> simp_all

theorem pyLines_map_lower (t : List Char) :
    pyLines (t.map asciiLower) = (pyLines t).map (List.map asciiLower) := by
  induction t with
  | nil => simp [pyLines]
  | cons c rest ih =>
    by_cases h : c = '\n'
    · subst h
      have hl : asciiLower '\n' = '\n' := rfl
      simp [pyLines, hl, ih]
    · have h2 : asciiLower c ≠ '\n' := fun hh => h (asciiLower_newline hh)
      simp only [List.map_cons]
      unfold pyLines
      rw [if_neg h2, if_neg h, ih]
      cases hr : pyLines rest with
      | nil => exact absurd hr (pyLines_ne_nil rest)
      | cons l ls => simp [hr]

theorem isPrefixOf_firstLine {nd : List Char} (hn : '\n' ∉ nd) :
    ∀ {t l : List Char} {ls : List (List Char)},
      nd.isPrefixOf t = true → pyLines t = l :: ls → nd.isPrefixOf l = true := by
  induction nd with
  | nil => intro t l ls _ _; simp [List.isPrefixOf]
  | cons a as ih =>
    intro t l ls hp he
    cases t with
    | nil => simp [List.isPrefixOf] at hp
    | cons b bs =>
      simp only [List.isPrefixOf, Bool.and_eq_true, beq_iff_eq] at hp
      obtain ⟨hab, hp2⟩ := hp
      have han : a ≠ '\n' := fun hh => hn (by rw [hh]; exact List.mem_cons_self _ _)
      have hbn : b ≠ '\n' := by rw [← hab]; exact han
      unfold pyLines at he
      rw [if_neg hbn] at he
      cases hbs : pyLines bs with
      | nil => exact absurd hbs (pyLines_ne_nil bs)
      | cons l0 ls0 =>
        rw [hbs] at he
        injection he with he1 he2
        subst he1
        have hnin : '\n' ∉ as := fun hh => hn (List.mem_cons_of_mem _ hh)
        have hres := ih hnin hp2 hbs
        simp [List.isPrefixOf, hab, hres]

theorem containsSub_line {nd : List Char} (hn : '\n' ∉ nd) :
    ∀ {t : List Char}, containsSub t nd = true → ∃ l ∈ pyLines t, containsSub l nd = true := by
  intro t
  induction t with
  | nil =>
    intro h
    simp only [containsSub, List.isEmpty_iff] at h
    subst h
    exact ⟨[], by simp [pyLines], by simp [containsSub]⟩
  | cons c rest ih =>
    intro h
    simp only [containsSub, Bool.or_eq_true] at h
    rcases h with hp | hc
    · cases hl : pyLines (c :: rest) with
      | nil => exact absurd hl (pyLines_ne_nil _)
      | cons l ls =>
        have hpl : nd.isPrefixOf l = true := isPrefixOf_firstLine hn hp hl
        refine ⟨l, by simp [hl], ?_⟩
        cases l with
        | nil =>
          cases nd with
          | nil => simp [containsSub]
          | cons x xs => simp [List.isPrefixOf] at hpl
        | cons x xs => simp [containsSub, hpl]
    · obtain ⟨l, hml, hcl⟩ := ih hc
      by_cases hcn : c = '\n'
      · subst hcn
        exact ⟨l, by simp [pyLines, hml], hcl⟩
      · unfold pyLines
        rw [if_neg hcn]
        cases hbs : pyLines rest with
        | nil => exact absurd hbs (pyLines_ne_nil rest)
        | cons l0 ls0 =>
          rw [hbs] at hml
          rcases List.mem_cons.mp hml with h1 | h2
          · subst h1
            exact ⟨c :: l, by simp, by simp [containsSub, hcl]⟩
          · exact ⟨l, by simp [h2], hcl⟩

/-- C2: a call of process_candidates with an empty resume path list or an
empty job description returns a non-empty error field, all four collections
empty, and invokes no screening, scheduling or email operation. -/
theorem pipeline_input_validation (env : Env) (paths : List String) (jd : String) (ms : Rat)
    (h : paths = [] ∨ jd = "") :
    (process_candidates env paths jd ms).1.error ≠ none ∧
    (process_candidates env paths jd ms).1.error ≠ some "" ∧
    (process_candidates env paths jd ms).1.all_candidates = [] ∧
    (process_candidates env paths jd ms).1.selected_candidates = [] ∧
    (process_candidates env paths jd ms).1.results = [] ∧
    (process_candidates env paths jd ms).1.email_contents = [] ∧
    (process_candidates env paths jd ms).2 = emptyTrace := by
  rcases h with h | h
  · subst h
    simp [process_candidates]
  · subst h
    by_cases hp : paths = []
    · subst hp
      simp [process_candidates]
    · simp [process_candidates, hp]

/-- C2 witness: the validation theorem at a concrete empty job description. -/
theorem pipeline_input_validation_witness :
    ((["a.pdf"] : List String) = [] ∨ ("" : String) = "") ∧
    ((process_candidates envW ["a.pdf"] "" 5).1.error ≠ none ∧
     (process_candidates envW ["a.pdf"] "" 5).1.error ≠ some "" ∧
     (process_candidates envW ["a.pdf"] "" 5).1.all_candidates = [] ∧
     (process_candidates envW ["a.pdf"] "" 5).1.selected_candidates = [] ∧
     (process_candidates envW ["a.pdf"] "" 5).1.results = [] ∧
     (process_candidates envW ["a.pdf"] "" 5).1.email_contents = [] ∧
     (process_candidates envW ["a.pdf"] "" 5).2 = emptyTrace) :=
  ⟨Or.inr rfl, pipeline_input_validation envW ["a.pdf"] "" 5 (Or.inr rfl)⟩

/-- C3 amended: the email step reports success exactly when either the
draft arrived structured and the invoked send capability returned a
non-null acknowledgment, or the draft arrived as plain text and the
fallback produced an email without invoking the send capability; the send
capability is invoked exactly when the draft arrived structured. -/
theorem email_step_success_characterization (env : Env) (c : ScreeningResult) (sc : ScheduledCall) :
    ((send_interview_invitation env c sc).content.isSome = true ↔
      ((∃ ec, env.emailWriteResp c sc = some (AgentResp.structured ec) ∧
          (env.emailSendResp c.email ec.subject ec.body).isSome = true) ∨
        (∃ s, env.emailWriteResp c sc = some (AgentResp.raw s)))) ∧
    ((send_interview_invitation env c sc).sendInvoked = true ↔
      (∃ ec, env.emailWriteResp c sc = some (AgentResp.structured ec))) := by
  cases hw : env.emailWriteResp c sc with
  | none => simp [send_interview_invitation, hw]
  | some ar =>
    cases ar with
    | structured ec0 =>
      cases hs : env.emailSendResp c.email ec0.subject ec0.body with
      | none => simp [send_interview_invitation, hw, hs]
      | some ack => simp [send_interview_invitation, hw, hs]
    | raw s0 => simp [send_interview_invitation, hw]

/-- C3 counterexample: with a plain text draft the step reports success,
a non-None email content, although the send capability was never invoked,
refuting that success occurs exactly when the send capability was invoked
and returned a non-null response. -/
theorem email_step_fallback_success_without_send_cex :
    (send_interview_invitation envC3 cW scW).content.isSome = true ∧
    (send_interview_invitation envC3 cW scW).sendInvoked = false := by
  decide

/-- C4: whenever the first matching score pattern of the fallback parser
yields a value strictly above ten, the produced score is that value divided
by ten. -/
theorem fallback_score_renormalization (t : String) (g : List Char)
    (h1 : findScoreMatch (pyLowerList t) = some g) (h2 : 10 < parseDecimal g) :
    (fallbackScreen t).score = parseDecimal g / 10 := by
  simp only [fallbackScreen, h1]
  simp [if_pos h2]

/-- C4 witness: the renormalization theorem applied to a response text
whose first score match is 85. -/
theorem fallback_score_renormalization_witness :
    (findScoreMatch (pyLowerList "Score: 85") = some ['8', '5']) ∧
    ((10 : Rat) < parseDecimal ['8', '5']) ∧
    (fallbackScreen "Score: 85").score = parseDecimal ['8', '5'] / 10 :=
  ⟨by decide, by decide,
   fallback_score_renormalization "Score: 85" ['8', '5'] (by decide) (by decide)⟩

/-- C5: a fallback response text with no line holding the token name colon
and no match of any score pattern produces the default name Unknown
Candidate and the default score five. -/
theorem fallback_defaults_no_name_no_score (t : String)
    (h1 : (pyLines t.toList).all
      (fun l => !(containsSub (l.map asciiLower) ("name:".toList))) = true)
    (h2 : findScoreMatch (pyLowerList t) = none) :
    (fallbackScreen t).name = "Unknown Candidate" ∧ (fallbackScreen t).score = 5 := by
  have hc : containsSub (pyLowerList t) ("name:".toList) = false := by
    cases hcc : containsSub (pyLowerList t) ("name:".toList) with
    | false => rfl
    | true =>
      exfalso
      have hn : '\n' ∉ ("name:".toList) := by decide
      have hcc2 : containsSub (t.toList.map asciiLower) ("name:".toList) = true := hcc
      obtain ⟨l2, hml2, hcl2⟩ := containsSub_line hn hcc2
      rw [pyLines_map_lower] at hml2
      obtain ⟨l, hml, hle⟩ := List.mem_map.mp hml2
      have hall := List.all_eq_true.mp h1 l hml
      rw [hle] at hall
      rw [hcl2] at hall
      simp at hall
  have hc2 : containsSub (pyLowerList t) ['n', 'a', 'm', 'e', ':'] = false := hc
  constructor
  · simp [fallbackScreen, hc, hc2]
  · simp [fallbackScreen, h2]

/-- C5 witness: the defaults theorem applied to a text with neither a name
line nor a score pattern. -/
theorem fallback_defaults_no_name_no_score_witness :
    ((pyLines ("hello world" : String).toList).all
      (fun l => !(containsSub (l.map asciiLower) ("name:".toList))) = true) ∧
    (findScoreMatch (pyLowerList "hello world") = none) ∧
    ((fallbackScreen "hello world").name = "Unknown Candidate" ∧
     (fallbackScreen "hello world").score = 5) :=
  ⟨by decide, by decide,
   fallback_defaults_no_name_no_score "hello world" (by decide) (by decide)⟩

/-- C6: the scheduling and email update is applied to the first results row
whose email equals the candidate email and to that row only; rows before it
and rows after it, even rows sharing the same email, are unchanged. -/
theorem update_first_matching_row (pre : List CandidateResult) (r : CandidateResult)
    (post : List CandidateResult) (em : String) (sc : ScheduledCall) (ec : Option EmailContent)
    (hpre : pre.all (fun x => !(x.email == em)) = true) (hr : r.email = em) :
    applyUpdate (pre ++ r :: post) em sc ec = pre ++ updRow r sc ec :: post := by
  induction pre with
  | nil => simp [applyUpdate, hr]
  | cons x xs ih =>
    simp only [List.all_cons, Bool.and_eq_true, Bool.not_eq_true', beq_eq_false_iff_ne] at hpre
    have hrec := ih hpre.2
    show applyUpdate (x :: (xs ++ r :: post)) em sc ec = x :: (xs ++ updRow r sc ec :: post)
    rw [applyUpdate, if_neg hpre.1, hrec]

/-- C6 witness: the first-match theorem on a results list where the second
and third rows share the candidate email; only the second row changes. -/
theorem update_first_matching_row_witness :
    (([rowOther]).all (fun x => !(x.email == "dup@x.com")) = true) ∧
    (rowDup1.email = "dup@x.com") ∧
    applyUpdate ([rowOther] ++ rowDup1 :: [rowDup2]) "dup@x.com" scW (some ecW) =
      [rowOther] ++ updRow rowDup1 scW (some ecW) :: [rowDup2] :=
  ⟨by decide, by decide,
   update_first_matching_row [rowOther] rowDup1 [rowDup2] "dup@x.com" scW (some ecW)
     (by decide) (by decide)⟩

/-- C8 amended: every ScheduledCall produced by the fallback path of the
scheduling step carries the candidate name and email, a call_time one to
seven days after the invocation date at an hour between ten and seventeen
with zero minutes, and a url of the exact template with a nine digit
meeting id; the range hypotheses are the randint contracts of the draws. -/
theorem schedule_fallback_slot_shape (env : Env) (c : ScreeningResult) (s : String)
    (hr : env.schedResp c = some (AgentResp.raw s))
    (hd1 : 1 ≤ (env.schedRand c).1) (hd7 : (env.schedRand c).1 ≤ 7)
    (hh1 : 10 ≤ (env.schedRand c).2.1) (hh2 : (env.schedRand c).2.1 ≤ 17)
    (hm1 : 100000000 ≤ (env.schedRand c).2.2) (hm2 : (env.schedRand c).2.2 ≤ 999999999) :
    (schedule_interview env c =
      some { name := c.name, email := c.email,
             call_time := fmtDateTime
               { day := env.now.day + (env.schedRand c).1, hour := (env.schedRand c).2.1,
                 minute := 0, second := 0 },
             url := "https://zoom.us/j/" ++ Nat.repr (env.schedRand c).2.2 }) ∧
    1 ≤ (env.schedRand c).1 ∧ (env.schedRand c).1 ≤ 7 ∧
    10 ≤ (env.schedRand c).2.1 ∧ (env.schedRand c).2.1 ≤ 17 ∧
    100000000 ≤ (env.schedRand c).2.2 ∧ (env.schedRand c).2.2 ≤ 999999999 := by
  refine ⟨?_, hd1, hd7, hh1, hh2, hm1, hm2⟩
  simp [schedule_interview, hr, replaceTimeFields, addDays]

/-- C8 witness: the fallback slot theorem at a concrete environment whose
scheduler answers with plain text. -/
theorem schedule_fallback_slot_shape_witness :
    (envC1.schedResp cB = some (AgentResp.raw "tool text")) ∧
    (1 ≤ (envC1.schedRand cB).1) ∧ ((envC1.schedRand cB).1 ≤ 7) ∧
    (10 ≤ (envC1.schedRand cB).2.1) ∧ ((envC1.schedRand cB).2.1 ≤ 17) ∧
    (100000000 ≤ (envC1.schedRand cB).2.2) ∧ ((envC1.schedRand cB).2.2 ≤ 999999999) ∧
    ((schedule_interview envC1 cB =
      some { name := cB.name, email := cB.email,
             call_time := fmtDateTime
               { day := envC1.now.day + (envC1.schedRand cB).1, hour := (envC1.schedRand cB).2.1,
                 minute := 0, second := 0 },
             url := "https://zoom.us/j/" ++ Nat.repr (envC1.schedRand cB).2.2 }) ∧
     1 ≤ (envC1.schedRand cB).1 ∧ (envC1.schedRand cB).1 ≤ 7 ∧
     10 ≤ (envC1.schedRand cB).2.1 ∧ (envC1.schedRand cB).2.1 ≤ 17 ∧
     100000000 ≤ (envC1.schedRand cB).2.2 ∧ (envC1.schedRand cB).2.2 ≤ 999999999) :=
  ⟨by decide, by decide, by decide, by decide, by decide, by decide, by decide,
   schedule_fallback_slot_shape envC1 cB "tool text" (by decide) (by decide) (by decide)
     (by decide) (by decide) (by decide) (by decide)⟩

/-- C8 counterexample: a structured scheduler answer is passed through
unchecked, so the scheduling step can produce a ScheduledCall whose url
does not even start with the meeting url template and whose call_time is
not a formatted slot. -/
theorem schedule_structured_passthrough_cex :
    schedule_interview envC8 cW = some callBadC8 ∧
    callBadC8.url.startsWith "https://zoom.us/j/" = false ∧
    callBadC8.call_time = "whenever" := by
  decide

/-- C9: when extraction of a path yields the empty string and the path is
not cached, screen_candidate fails, leaves the cache unchanged, and invokes
the extractor; a second call on the resulting cache extracts again instead
of reading a cached value. -/
theorem empty_extraction_not_cached (env : Env) (p jd : String)
    (cache : List (String × String))
    (h1 : env.extract p = "") (h2 : List.lookup p cache = none) :
    screen_candidate env p jd cache = { result := none, cache := cache, extracted := true } ∧
    screen_candidate env p jd (screen_candidate env p jd cache).cache =
      { result := none, cache := cache, extracted := true } := by
  have e : screen_candidate env p jd cache =
      { result := none, cache := cache, extracted := true } := by
    unfold screen_candidate
    rw [h2]
    simp [h1]
  refine ⟨e, ?_⟩
  rw [e]
  exact e

/-- C9 witness: the no-caching theorem at a concrete environment with an
unreadable resume path. -/
theorem empty_extraction_not_cached_witness :
    (envW.extract "missing.pdf" = "") ∧
    (List.lookup "missing.pdf" ([] : List (String × String)) = none) ∧
    (screen_candidate envW "missing.pdf" "JD" [] =
       { result := none, cache := [], extracted := true } ∧
     screen_candidate envW "missing.pdf" "JD"
         (screen_candidate envW "missing.pdf" "JD" []).cache =
       { result := none, cache := [], extracted := true }) :=
  ⟨by decide, rfl, empty_extraction_not_cached envW "missing.pdf" "JD" [] (by decide) rfl⟩

theorem screen_candidate_pure (env : Env) (p jd : String) (cache : List (String × String))
    (hC : CacheOK env cache) :
    (screen_candidate env p jd cache).result = screenPure env jd p ∧
    CacheOK env (screen_candidate env p jd cache).cache := by
  cases h : List.lookup p cache with
  | none =>
    by_cases ht : env.extract p = ""
    · constructor
      · simp [screen_candidate, h, ht, screenPure]
      · simp only [screen_candidate, h]
        rw [if_pos ht]
        exact hC
    · constructor
      · simp [screen_candidate, h, ht, screenPure]
      · simp only [screen_candidate, h]
        rw [if_neg ht]
        intro q t hq
        simp only [List.lookup] at hq
        by_cases hqp : q = p
        · subst hqp
          simp at hq
          exact ⟨hq.symm, by rw [hq] at ht; exact ht⟩
        · have hqb : (q == p) = false := by simpa using hqp
          rw [hqb] at hq
          exact hC q t hq
  | some t =>
    obtain ⟨h1, h2⟩ := hC p t h
    constructor
    · simp only [screen_candidate, h, screenPure]
      rw [if_neg (by rw [← h1]; exact h2), h1]
    · simpa [screen_candidate, h] using hC

theorem phase1_char (env : Env) (jd : String) (ms : Rat) :
    ∀ (paths : List String) (st : PipeState), CacheOK env st.resume_cache →
    ∃ cache2,
      phase1 env jd ms paths st =
        { resume_cache := cache2,
          all_candidates := st.all_candidates ++ paths.filterMap (screenPure env jd),
          selected_candidates := st.selected_candidates ++
            (paths.filterMap (screenPure env jd)).filter (fun c => decide (ms ≤ c.score)),
          results := st.results ++ (paths.filterMap (screenPure env jd)).map (mkRow ms),
          email_contents := st.email_contents,
          tr := { screened := st.tr.screened ++ paths, schedCalls := st.tr.schedCalls,
                  emailCalls := st.tr.emailCalls } } ∧
      CacheOK env cache2 := by
  intro paths
  induction paths with
  | nil =>
    intro st hC
    refine ⟨st.resume_cache, ?_, hC⟩
    obtain ⟨c0, a0, s0, r0, e0, t0⟩ := st
    obtain ⟨ts, tc, te⟩ := t0
    simp [phase1]
  | cons p ps ih =>
    intro st hC
    obtain ⟨hres, hC1⟩ := screen_candidate_pure env p jd st.resume_cache hC
    have hph : phase1 env jd ms (p :: ps) st = phase1 env jd ms ps (phase1step env jd ms st p) := rfl
    cases hp : screenPure env jd p with
    | none =>
      have hstep : phase1step env jd ms st p =
          { resume_cache := (screen_candidate env p jd st.resume_cache).cache,
            all_candidates := st.all_candidates,
            selected_candidates := st.selected_candidates,
            results := st.results,
            email_contents := st.email_contents,
            tr := { screened := st.tr.screened ++ [p], schedCalls := st.tr.schedCalls,
                    emailCalls := st.tr.emailCalls } } := by
        simp only [phase1step, hres, hp]
      obtain ⟨c2, hrec, hC2⟩ := ih
        { resume_cache := (screen_candidate env p jd st.resume_cache).cache,
          all_candidates := st.all_candidates,
          selected_candidates := st.selected_candidates,
          results := st.results,
          email_contents := st.email_contents,
          tr := { screened := st.tr.screened ++ [p], schedCalls := st.tr.schedCalls,
                  emailCalls := st.tr.emailCalls } } hC1
      refine ⟨c2, ?_, hC2⟩
      rw [hph, hstep, hrec]
      simp [hp, List.filterMap_cons, List.append_assoc]
    | some sr =>
      have hstep : phase1step env jd ms st p =
          { resume_cache := (screen_candidate env p jd st.resume_cache).cache,
            all_candidates := st.all_candidates ++ [sr],
            selected_candidates :=
              if ms ≤ sr.score then st.selected_candidates ++ [sr] else st.selected_candidates,
            results := st.results ++ [mkRow ms sr],
            email_contents := st.email_contents,
            tr := { screened := st.tr.screened ++ [p], schedCalls := st.tr.schedCalls,
                    emailCalls := st.tr.emailCalls } } := by
        simp only [phase1step, hres, hp]
      obtain ⟨c2, hrec, hC2⟩ := ih
        { resume_cache := (screen_candidate env p jd st.resume_cache).cache,
          all_candidates := st.all_candidates ++ [sr],
          selected_candidates :=
            if ms ≤ sr.score then st.selected_candidates ++ [sr] else st.selected_candidates,
          results := st.results ++ [mkRow ms sr],
          email_contents := st.email_contents,
          tr := { screened := st.tr.screened ++ [p], schedCalls := st.tr.schedCalls,
                  emailCalls := st.tr.emailCalls } } hC1
      refine ⟨c2, ?_, hC2⟩
      rw [hph, hstep, hrec]
      by_cases hsel : ms ≤ sr.score
      · simp [hp, hsel, List.filterMap_cons, List.filter_cons, List.append_assoc]
      · simp [hp, hsel, List.filterMap_cons, List.filter_cons, List.append_assoc]

theorem updRow_fields (r : CandidateResult) (sc : ScheduledCall) (ec : Option EmailContent) :
    (updRow r sc ec).name = r.name ∧ (updRow r sc ec).email = r.email ∧
    (updRow r sc ec).score = r.score ∧ (updRow r sc ec).feedback = r.feedback ∧
    ((updRow r sc ec).status = Status.scheduled ∨ (updRow r sc ec).status = Status.email_sent) := by
  cases ec <;> simp [updRow]

theorem applyUpdate_length (l : List CandidateResult) (em : String) (sc : ScheduledCall)
    (ec : Option EmailContent) : (applyUpdate l em sc ec).length = l.length := by
  induction l with
  | nil => rfl
  | cons r rest ih =>
    unfold applyUpdate
    by_cases h : r.email = em <;> simp [h, ih]

theorem applyUpdate_get (em : String) (sc : ScheduledCall) (ec : Option EmailContent) :
    ∀ (l : List CandidateResult) (i : Nat) (r : CandidateResult), l.get? i = some r →
    ∃ r2, (applyUpdate l em sc ec).get? i = some r2 ∧ r2.name = r.name ∧ r2.email = r.email ∧
      r2.score = r.score ∧ r2.feedback = r.feedback ∧
      (r2.status = r.status ∨ r2.status = Status.scheduled ∨ r2.status = Status.email_sent) := by
  intro l
  induction l with
  | nil => intro i r h; simp at h
  | cons x xs ih =>
    intro i r h
    cases i with
    | zero =>
      simp only [List.get?] at h
      injection h with h
      subst h
      unfold applyUpdate
      by_cases hx : x.email = em
      · rw [if_pos hx]
        obtain ⟨h1, h2, h3, h4, h5⟩ := updRow_fields x sc ec
        exact ⟨updRow x sc ec, rfl, h1, h2, h3, h4, Or.inr h5⟩
      · rw [if_neg hx]
        exact ⟨x, rfl, rfl, rfl, rfl, rfl, Or.inl rfl⟩
    | succ j =>
      simp only [List.get?] at h
      unfold applyUpdate
      by_cases hx : x.email = em
      · rw [if_pos hx]
        exact ⟨r, h, rfl, rfl, rfl, rfl, Or.inl rfl⟩
      · rw [if_neg hx]
        obtain ⟨r2, hg, hh⟩ := ih j r h
        exact ⟨r2, hg, hh⟩

theorem applyUpdate_untouched (em : String) (sc : ScheduledCall) (ec : Option EmailContent) :
    ∀ (l : List CandidateResult) (i : Nat) (r : CandidateResult), r.email ≠ em →
      l.get? i = some r → (applyUpdate l em sc ec).get? i = some r := by
  intro l
  induction l with
  | nil => intro i r _ h; simp at h
  | cons x xs ih =>
    intro i r hne h
    cases i with
    | zero =>
      simp only [List.get?] at h
      injection h with h
      subst h
      unfold applyUpdate
      rw [if_neg hne]
      rfl
    | succ j =>
      simp only [List.get?] at h
      unfold applyUpdate
      by_cases hx : x.email = em
      · rw [if_pos hx]
        exact h
      · rw [if_neg hx]
        exact ih j r hne h

theorem phase2_length (env : Env) :
    ∀ (cs : List ScreeningResult) (results : List CandidateResult)
      (emails : List (String × EmailContent)) (tr : Trace),
      ((phase2 env cs results emails tr).1).length = results.length := by
  intro cs
  induction cs with
  | nil => intro results emails tr; rfl
  | cons c cs2 ih =>
    intro results emails tr
    cases hs : schedule_interview env c with
    | none => simp only [phase2, hs]; exact ih results emails _
    | some sc =>
      simp only [phase2, hs]
      rw [ih]
      exact applyUpdate_length results c.email sc _

theorem phase2_get (env : Env) :
    ∀ (cs : List ScreeningResult) (results : List CandidateResult)
      (emails : List (String × EmailContent)) (tr : Trace) (i : Nat) (r : CandidateResult),
      results.get? i = some r →
      ∃ r2, ((phase2 env cs results emails tr).1).get? i = some r2 ∧
        r2.name = r.name ∧ r2.email = r.email ∧ r2.score = r.score ∧ r2.feedback = r.feedback ∧
        (r2.status = r.status ∨ r2.status = Status.scheduled ∨ r2.status = Status.email_sent) := by
  intro cs
  induction cs with
  | nil =>
    intro results emails tr i r h
    exact ⟨r, h, rfl, rfl, rfl, rfl, Or.inl rfl⟩
  | cons c cs2 ih =>
    intro results emails tr i r h
    cases hs : schedule_interview env c with
    | none =>
      simp only [phase2, hs]
      exact ih results emails _ i r h
    | some sc =>
      simp only [phase2, hs]
      obtain ⟨r1, hg1, hn1, he1, hs1, hf1, hst1⟩ :=
        applyUpdate_get c.email sc (send_interview_invitation env c sc).content results i r h
      obtain ⟨r2, hg2, hn2, he2, hs2, hf2, hst2⟩ := ih _ _ _ i r1 hg1
      refine ⟨r2, hg2, hn2.trans hn1, he2.trans he1, hs2.trans hs1, hf2.trans hf1, ?_⟩
      rcases hst2 with h2 | h2 | h2
      · rw [h2]
        exact hst1
      · exact Or.inr (Or.inl h2)
      · exact Or.inr (Or.inr h2)

theorem phase2_untouched (env : Env) (e : String) :
    ∀ (cs : List ScreeningResult) (results : List CandidateResult)
      (emails : List (String × EmailContent)) (tr : Trace),
      (∀ c ∈ cs, c.email ≠ e) →
      ∀ (i : Nat) (r : CandidateResult), results.get? i = some r → r.email = e →
        ((phase2 env cs results emails tr).1).get? i = some r := by
  intro cs
  induction cs with
  | nil => intro results emails tr _ i r h _; exact h
  | cons c cs2 ih =>
    intro results emails tr hcs i r h hre
    have hc : c.email ≠ e := hcs c (List.mem_cons_self c cs2)
    have hcs2 : ∀ x ∈ cs2, x.email ≠ e := fun x hx => hcs x (List.mem_cons_of_mem c hx)
    have hrne : r.email ≠ c.email := by
      rw [hre]
      exact fun hh => hc hh.symm
    cases hs : schedule_interview env c with
    | none =>
      simp only [phase2, hs]
      exact ih results emails _ hcs2 i r h hre
    | some sc =>
      simp only [phase2, hs]
      exact ih _ _ _ hcs2 i r
        (applyUpdate_untouched c.email sc (send_interview_invitation env c sc).content
          results i r hrne h) hre

theorem phase2_trace (env : Env) :
    ∀ (cs : List ScreeningResult) (results : List CandidateResult)
      (emails : List (String × EmailContent)) (tr : Trace),
      ((phase2 env cs results emails tr).2.2).schedCalls = tr.schedCalls ++ cs ∧
      (∀ x ∈ ((phase2 env cs results emails tr).2.2).emailCalls,
        x ∈ tr.emailCalls ∨ x ∈ cs) := by
  intro cs
  induction cs with
  | nil =>
    intro results emails tr
    exact ⟨by simp [phase2], fun x hx => Or.inl hx⟩
  | cons c cs2 ih =>
    intro results emails tr
    cases hs : schedule_interview env c with
    | none =>
      simp only [phase2, hs]
      obtain ⟨h1, h2⟩ := ih results emails { tr with schedCalls := tr.schedCalls ++ [c] }
      refine ⟨by simpa using h1, fun x hx => ?_⟩
      rcases h2 x hx with hh | hh
      · exact Or.inl hh
      · exact Or.inr (List.mem_cons_of_mem c hh)
    | some sc =>
      simp only [phase2, hs]
      constructor
      · rw [(ih _ _ _).1]
        simp
      · intro x hx
        rcases (ih _ _ _).2 x hx with hh | hh
        · rcases List.mem_append.mp hh with hh2 | hh2
          · exact Or.inl hh2
          · simp at hh2
            rw [hh2]
            exact Or.inr (List.mem_cons_self c cs2)
        · exact Or.inr (List.mem_cons_of_mem c hh)

theorem phase2_indep (env : Env) :
    ∀ (cs : List ScreeningResult) (results : List CandidateResult)
      (emails : List (String × EmailContent)) (tr tr2 : Trace),
      (phase2 env cs results emails tr).1 = (phase2 env cs results emails tr2).1 ∧
      (phase2 env cs results emails tr).2.1 = (phase2 env cs results emails tr2).2.1 := by
  intro cs
  induction cs with
  | nil => intro results emails tr tr2; exact ⟨rfl, rfl⟩
  | cons c cs2 ih =>
    intro results emails tr tr2
    cases hs : schedule_interview env c with
    | none =>
      simp only [phase2, hs]
      exact ih results emails _ _
    | some sc =>
      simp only [phase2, hs]
      exact ih _ _ _ _

theorem process_candidates_eq (env : Env) (paths : List String) (jd : String) (ms : Rat)
    (hp : paths ≠ []) (hj : jd ≠ "") :
    process_candidates env paths jd ms =
      ({ all_candidates := paths.filterMap (screenPure env jd),
         selected_candidates :=
           (paths.filterMap (screenPure env jd)).filter (fun c => decide (ms ≤ c.score)),
         results := (phase2 env
           ((paths.filterMap (screenPure env jd)).filter (fun c => decide (ms ≤ c.score)))
           ((paths.filterMap (screenPure env jd)).map (mkRow ms)) []
           { screened := paths, schedCalls := [], emailCalls := [] }).1,
         email_contents := (phase2 env
           ((paths.filterMap (screenPure env jd)).filter (fun c => decide (ms ≤ c.score)))
           ((paths.filterMap (screenPure env jd)).map (mkRow ms)) []
           { screened := paths, schedCalls := [], emailCalls := [] }).2.1,
         error := none },
       (phase2 env
         ((paths.filterMap (screenPure env jd)).filter (fun c => decide (ms ≤ c.score)))
         ((paths.filterMap (screenPure env jd)).map (mkRow ms)) []
         { screened := paths, schedCalls := [], emailCalls := [] }).2.2) := by
  have hC0 : CacheOK env ([] : List (String × String)) := by
    intro q t hq
    simp [List.lookup] at hq
  obtain ⟨c2, hphase, _⟩ := phase1_char env jd ms paths
    { resume_cache := [], all_candidates := [], selected_candidates := [], results := [],
      email_contents := [], tr := emptyTrace } hC0
  simp only [process_candidates, if_neg hp, if_neg hj]
  rw [hphase]
  simp [emptyTrace]

/-- C10: in every result of process_candidates the results list has the
same length as all_candidates, selected_candidates is exactly the filter of
all_candidates at the threshold in order, and the i-th results row carries
the name, email, score and feedback of the i-th screened candidate. -/
theorem results_align_with_candidates (env : Env) (paths : List String) (jd : String) (ms : Rat) :
    (process_candidates env paths jd ms).1.results.length =
      (process_candidates env paths jd ms).1.all_candidates.length ∧
    (process_candidates env paths jd ms).1.selected_candidates =
      (process_candidates env paths jd ms).1.all_candidates.filter
        (fun c => decide (ms ≤ c.score)) ∧
    ∀ (i : Nat) (c : ScreeningResult) (r : CandidateResult),
      (process_candidates env paths jd ms).1.all_candidates.get? i = some c →
      (process_candidates env paths jd ms).1.results.get? i = some r →
      r.name = c.name ∧ r.email = c.email ∧ r.score = c.score ∧ r.feedback = c.feedback := by
  by_cases hp : paths = []
  · subst hp
    refine ⟨by simp [process_candidates], by simp [process_candidates], ?_⟩
    intro i c r hc hr
    simp [process_candidates] at hc
  · by_cases hj : jd = ""
    · subst hj
      refine ⟨by simp [process_candidates, hp], by simp [process_candidates, hp], ?_⟩
      intro i c r hc hr
      simp [process_candidates, hp] at hc
    · have heq := process_candidates_eq env paths jd ms hp hj
      have hall : (process_candidates env paths jd ms).1.all_candidates =
          paths.filterMap (screenPure env jd) := by rw [heq]
      have hsel : (process_candidates env paths jd ms).1.selected_candidates =
          (paths.filterMap (screenPure env jd)).filter (fun c => decide (ms ≤ c.score)) := by
        rw [heq]
      have hres : (process_candidates env paths jd ms).1.results =
          (phase2 env
            ((paths.filterMap (screenPure env jd)).filter (fun c => decide (ms ≤ c.score)))
            ((paths.filterMap (screenPure env jd)).map (mkRow ms)) []
            { screened := paths, schedCalls := [], emailCalls := [] }).1 := by
        rw [heq]
      refine ⟨?_, ?_, ?_⟩
      · rw [hres, hall, phase2_length]
        simp
      · rw [hsel, hall]
      · intro i c r hc hr
        rw [hall] at hc
        rw [hres] at hr
        have hR0 : ((paths.filterMap (screenPure env jd)).map (mkRow ms)).get? i =
            some (mkRow ms c) := by
          rw [List.get?_map, hc]
          rfl
        obtain ⟨r2, hg, hn, he, hsc, hf, _⟩ := phase2_get env _ _ _ _ i (mkRow ms c) hR0
        rw [hr] at hg
        injection hg with hg
        subst hg
        exact ⟨hn, he, hsc, hf⟩

/-- C1 amended: for every screened candidate, a score at or above the
threshold leaves its row with status selected, scheduled or email_sent; a
score below the threshold means no scheduling call and no email call is
ever made for that candidate, and, provided no screened candidate at or
above the threshold shares its email, its row ends with status rejected.
When a selected candidate shares the email of an earlier rejected row the
update lands on that earlier row, which is why the proviso is needed. -/
theorem pipeline_status_vs_threshold (env : Env) (paths : List String) (jd : String) (ms : Rat)
    (i : Nat) (c : ScreeningResult) (r : CandidateResult)
    (hc : (process_candidates env paths jd ms).1.all_candidates.get? i = some c)
    (hr : (process_candidates env paths jd ms).1.results.get? i = some r) :
    (ms ≤ c.score →
      (r.status = Status.selected ∨ r.status = Status.scheduled ∨
        r.status = Status.email_sent)) ∧
    (c.score < ms →
      c ∉ (process_candidates env paths jd ms).2.schedCalls ∧
      c ∉ (process_candidates env paths jd ms).2.emailCalls) ∧
    (c.score < ms →
      (∀ (j : Nat) (c2 : ScreeningResult),
        (process_candidates env paths jd ms).1.all_candidates.get? j = some c2 →
        ms ≤ c2.score → c2.email ≠ c.email) →
      r.status = Status.rejected) := by
  by_cases hp : paths = []
  · subst hp
    simp [process_candidates] at hc
  · by_cases hj : jd = ""
    · subst hj
      simp [process_candidates, hp] at hc
    · have heq := process_candidates_eq env paths jd ms hp hj
      have hall : (process_candidates env paths jd ms).1.all_candidates =
          paths.filterMap (screenPure env jd) := by rw [heq]
      have hres : (process_candidates env paths jd ms).1.results =
          (phase2 env
            ((paths.filterMap (screenPure env jd)).filter (fun c => decide (ms ≤ c.score)))
            ((paths.filterMap (screenPure env jd)).map (mkRow ms)) []
            { screened := paths, schedCalls := [], emailCalls := [] }).1 := by
        rw [heq]
      have htr : (process_candidates env paths jd ms).2 =
          (phase2 env
            ((paths.filterMap (screenPure env jd)).filter (fun c => decide (ms ≤ c.score)))
            ((paths.filterMap (screenPure env jd)).map (mkRow ms)) []
            { screened := paths, schedCalls := [], emailCalls := [] }).2.2 := by
        rw [heq]
      rw [hall] at hc
      rw [hres] at hr
      have hR0 : ((paths.filterMap (screenPure env jd)).map (mkRow ms)).get? i =
          some (mkRow ms c) := by
        rw [List.get?_map, hc]
        rfl
      obtain ⟨htr1, htr2⟩ := phase2_trace env
        ((paths.filterMap (screenPure env jd)).filter (fun c => decide (ms ≤ c.score)))
        ((paths.filterMap (screenPure env jd)).map (mkRow ms)) []
        { screened := paths, schedCalls := [], emailCalls := [] }
      refine ⟨?_, ?_, ?_⟩
      · intro hms
        obtain ⟨r2, hg, _, _, _, _, hst⟩ := phase2_get env _ _ _ _ i (mkRow ms c) hR0
        rw [hr] at hg
        injection hg with hg
        subst hg
        have hrow : (mkRow ms c).status = Status.selected := by
          simp [mkRow, if_neg (not_lt.mpr hms)]
        rcases hst with h | h | h
        · rw [h, hrow]
          exact Or.inl rfl
        · exact Or.inr (Or.inl h)
        · exact Or.inr (Or.inr h)
      · intro hlt
        constructor
        · intro hmem
          rw [htr] at hmem
          rw [htr1] at hmem
          simp only [List.nil_append] at hmem
          have := (List.mem_filter.mp hmem).2
          simp at this
          exact absurd this (not_le.mpr hlt)
        · intro hmem
          rw [htr] at hmem
          rcases htr2 c hmem with hh | hh
          · simp at hh
          · have := (List.mem_filter.mp hh).2
            simp at this
            exact absurd this (not_le.mpr hlt)
      · intro hlt hEm
        have hforall : ∀ s ∈ (paths.filterMap (screenPure env jd)).filter
            (fun c => decide (ms ≤ c.score)), s.email ≠ c.email := by
          intro s hsmem
          obtain ⟨hsAC, hsge⟩ := List.mem_filter.mp hsmem
          simp only [decide_eq_true_eq] at hsge
          obtain ⟨j, hj2⟩ := List.get?_of_mem hsAC
          exact hEm j s (by rw [hall]; exact hj2) hsge
        have huntouched := phase2_untouched env c.email
          ((paths.filterMap (screenPure env jd)).filter (fun c => decide (ms ≤ c.score)))
          ((paths.filterMap (screenPure env jd)).map (mkRow ms)) []
          { screened := paths, schedCalls := [], emailCalls := [] }
          hforall i (mkRow ms c) hR0 (by simp [mkRow])
        rw [hr] at huntouched
        injection huntouched with hrr
        rw [hrr]
        simp [mkRow, if_pos hlt]

/-- C7: a resume path whose screening fails (empty extraction, failing
screening capability, or missing content) contributes nothing to any of the
four result collections: the pipeline output on a path list containing such
a path equals the output on the list with that path removed, so no error
row is emitted for it. -/
theorem failed_screening_candidate_omitted (env : Env) (l1 l2 : List String) (p jd : String)
    (ms : Rat) (hj : jd ≠ "") (hfail : screenPure env jd p = none) :
    (process_candidates env (l1 ++ p :: l2) jd ms).1.all_candidates =
      (process_candidates env (l1 ++ l2) jd ms).1.all_candidates ∧
    (process_candidates env (l1 ++ p :: l2) jd ms).1.selected_candidates =
      (process_candidates env (l1 ++ l2) jd ms).1.selected_candidates ∧
    (process_candidates env (l1 ++ p :: l2) jd ms).1.results =
      (process_candidates env (l1 ++ l2) jd ms).1.results ∧
    (process_candidates env (l1 ++ p :: l2) jd ms).1.email_contents =
      (process_candidates env (l1 ++ l2) jd ms).1.email_contents := by
  have hne : l1 ++ p :: l2 ≠ [] := by simp
  have heq1 := process_candidates_eq env (l1 ++ p :: l2) jd ms hne hj
  have hAC : (l1 ++ p :: l2).filterMap (screenPure env jd) =
      (l1 ++ l2).filterMap (screenPure env jd) := by
    simp [List.filterMap_append, List.filterMap_cons, hfail]
  by_cases h0 : l1 ++ l2 = []
  · have hl1 : l1 = [] := (List.append_eq_nil.mp h0).1
    have hl2 : l2 = [] := (List.append_eq_nil.mp h0).2
    subst hl1
    subst hl2
    have hACnil : ([] ++ p :: ([] : List String)).filterMap (screenPure env jd) = [] := by
      simp [List.filterMap_cons, hfail]
    rw [heq1]
    simp only [hACnil]
    refine ⟨by simp [process_candidates], by simp [process_candidates],
      by simp [process_candidates, phase2], by simp [process_candidates, phase2]⟩
  · have heq2 := process_candidates_eq env (l1 ++ l2) jd ms h0 hj
    rw [heq1, heq2]
    simp only [hAC]
    obtain ⟨hi1, hi2⟩ := phase2_indep env
      (((l1 ++ l2).filterMap (screenPure env jd)).filter (fun c => decide (ms ≤ c.score)))
      (((l1 ++ l2).filterMap (screenPure env jd)).map (mkRow ms)) []
      { screened := l1 ++ p :: l2, schedCalls := [], emailCalls := [] }
      { screened := l1 ++ l2, schedCalls := [], emailCalls := [] }
    exact ⟨trivial, trivial, hi1, hi2⟩

/-- C7 witness: the omission theorem at a concrete environment where the
second resume path cannot be extracted. -/
theorem failed_screening_candidate_omitted_witness :
    (("JD" : String) ≠ "") ∧
    (screenPure envW "JD" "missing.pdf" = none) ∧
    ((process_candidates envW (["a.pdf"] ++ "missing.pdf" :: []) "JD" 5).1.all_candidates =
       (process_candidates envW (["a.pdf"] ++ []) "JD" 5).1.all_candidates ∧
     (process_candidates envW (["a.pdf"] ++ "missing.pdf" :: []) "JD" 5).1.selected_candidates =
       (process_candidates envW (["a.pdf"] ++ []) "JD" 5).1.selected_candidates ∧
     (process_candidates envW (["a.pdf"] ++ "missing.pdf" :: []) "JD" 5).1.results =
       (process_candidates envW (["a.pdf"] ++ []) "JD" 5).1.results ∧
     (process_candidates envW (["a.pdf"] ++ "missing.pdf" :: []) "JD" 5).1.email_contents =
       (process_candidates envW (["a.pdf"] ++ []) "JD" 5).1.email_contents) :=
  ⟨by decide, by decide,
   failed_screening_candidate_omitted envW ["a.pdf"] [] "missing.pdf" "JD" 5
     (by decide) (by decide)⟩

/-- C1 counterexample: with two screened candidates sharing one email, the
first rejected with score three and the second selected with score seven,
a successful scheduling for the second updates the first matching row, so
the rejected candidate's row ends with status scheduled, not rejected. -/
theorem pipeline_status_duplicate_email_cex :
    ((process_candidates envC1 ["a.pdf", "b.pdf"] "JD" 5).1.all_candidates.get? 0).map
      ScreeningResult.score = some 3 ∧
    ((3 : Rat) < 5) ∧
    ((process_candidates envC1 ["a.pdf", "b.pdf"] "JD" 5).1.results.get? 0).map
      CandidateResult.status = some Status.scheduled := by
  decide

/-- C1 witness: the threshold theorem at a concrete environment with a
single candidate scoring seven against threshold five. -/
theorem pipeline_status_vs_threshold_witness :
    ((process_candidates envW ["a.pdf"] "JD" 5).1.all_candidates.get? 0 = some cW) ∧
    ((process_candidates envW ["a.pdf"] "JD" 5).1.results.get? 0 = some (mkRow 5 cW)) ∧
    ((5 : Rat) ≤ cW.score) ∧
    ((mkRow 5 cW).status = Status.selected ∨ (mkRow 5 cW).status = Status.scheduled ∨
      (mkRow 5 cW).status = Status.email_sent) :=
  ⟨by decide, by decide, by decide,
   (pipeline_status_vs_threshold envW ["a.pdf"] "JD" 5 0 cW (mkRow 5 cW)
     (by decide) (by decide)).1 (by decide)⟩

/-- C10 witness: the alignment theorem at a concrete environment, row zero
against candidate zero. -/
theorem results_align_with_candidates_witness :
    ((process_candidates envW ["a.pdf"] "JD" 5).1.all_candidates.get? 0 = some cW) ∧
    ((process_candidates envW ["a.pdf"] "JD" 5).1.results.get? 0 = some (mkRow 5 cW)) ∧
    ((mkRow 5 cW).name = cW.name ∧ (mkRow 5 cW).email = cW.email ∧
     (mkRow 5 cW).score = cW.score ∧ (mkRow 5 cW).feedback = cW.feedback) :=
  ⟨by decide, by decide,
   (results_align_with_candidates envW ["a.pdf"] "JD" 5).2.2 0 cW (mkRow 5 cW)
     (by decide) (by decide)⟩
